import Mathlib

/-!
Verification of the Ollama chat-completions adapter (`swarm/ollama`).

The development shallowly embeds the adapter's data model and operations:

* `PyVal` models the Python values that can flow through tool-call
  arguments (JSON-compatible values; floats are outside the model).
* `dumpVal` / `json_dumps` model Python's `json.dumps` with its default
  settings (`ensure_ascii=True`, separators `", "` and `": "`).
* `parseValue` / `json_loads` model Python's `json.loads` (strict mode);
  the one modelling restriction is that numbers with a fraction or an
  exponent, and lone surrogate escapes, are rejected rather than producing
  a float or a surrogate code unit, neither of which the value model holds.
* `Function.from_ollama`, `WrappedResponse.ofRaw`, `heuristicStep`,
  `ChatCompletions.create` and `GetClientOllama` are translated line by
  line from `swarm/ollama/wrapper.py` and `swarm/ollama/clientOllama.py`.
  Python exceptions are modelled by `Exc`: `raise K(msg)` inside an
  `except E as e:` block yields cause `none` (no `from e`) and implicit
  context `some e`; `raise K(msg) from e` yields cause `some e`.
-/

namespace Swarm

/-- Model of the Python values that appear as tool-call arguments: JSON-style
data (`None`, `bool`, `int`, `str`, `list`, `dict`). Floats are outside the
model. -/
inductive PyVal where
  | null : PyVal
  | bool : Bool → PyVal
  | int : Int → PyVal
  | str : String → PyVal
  | list : List PyVal → PyVal
  | dict : List (String × PyVal) → PyVal

/-! ## Characters and digits -/

theorem charEqIff (c d : Char) : c = d ↔ c.toNat = d.toNat :=
  ⟨fun h => by rw [h], fun h => Char.ext (UInt32.ext h)⟩

/-- Every Lean `Char` is a Unicode scalar value: not a surrogate, below
0x110000. -/
theorem charValidFacts (c : Char) :
    c.toNat < 55296 ∨ (57343 < c.toNat ∧ c.toNat < 1114112) := by
  have h := c.valid
  unfold UInt32.isValidChar Nat.isValidChar at h
  exact h

def digitCh (d : Nat) : Char := Char.ofNat (48 + d)

theorem digitCh_toNat (d : Nat) (h : d < 10) : (digitCh d).toNat = 48 + d := by
  interval_cases d <;> rfl

def hexDig (d : Nat) : Char := Char.ofNat (if d < 10 then 48 + d else 87 + d)

def isWs (c : Char) : Bool := c = ' ' || c = '\t' || c = '\n' || c = '\r'

def skipWs (l : List Char) : List Char := l.dropWhile isWs

def isDigitCh (c : Char) : Bool := 48 ≤ c.toNat && c.toNat ≤ 57

/-! ## Decimal printing of integers (Python `str` of an `int`) -/

def natCharsAux : Nat → Nat → List Char → List Char
  | 0, _, acc => acc
  | _ + 1, 0, acc => acc
  | f + 1, n + 1, acc => natCharsAux f ((n + 1) / 10) (digitCh ((n + 1) % 10) :: acc)

def natChars (n : Nat) : List Char :=
  if n = 0 then ['0'] else natCharsAux n n []

def intChars (i : Int) : List Char :=
  if i < 0 then '-' :: natChars i.natAbs else natChars i.toNat

/-! ## JSON string escaping (Python `json.dumps` default `ensure_ascii=True`) -/

def hex4 (n : Nat) : List Char :=
  [hexDig (n / 4096 % 16), hexDig (n / 256 % 16), hexDig (n / 16 % 16), hexDig (n % 16)]

def escapeChar (c : Char) : List Char :=
  if c = '\\' then ['\\', '\\']
  else if c = '"' then ['\\', '"']
  else if c = '\x08' then ['\\', 'b']
  else if c = '\x0c' then ['\\', 'f']
  else if c = '\n' then ['\\', 'n']
  else if c = '\r' then ['\\', 'r']
  else if c = '\t' then ['\\', 't']
  else if 32 ≤ c.toNat ∧ c.toNat ≤ 126 then [c]
  else if c.toNat < 65536 then '\\' :: 'u' :: hex4 c.toNat
  else
    '\\' :: 'u' :: hex4 (55296 + (c.toNat - 65536) / 1024) ++
      '\\' :: 'u' :: hex4 (56320 + (c.toNat - 65536) % 1024)

def escChars : List Char → List Char
  | [] => []
  | c :: cs => escapeChar c ++ escChars cs

/-! ## `json.dumps` with the default separators `", "` and `": "` -/

mutual

def dumpVal : PyVal → List Char
  | .null => ("null").data
  | .bool true => ("true").data
  | .bool false => ("false").data
  | .int i => intChars i
  | .str s => '"' :: escChars s.data ++ ['"']
  | .list [] => ['[', ']']
  | .list (v :: vs) => '[' :: dumpVal v ++ dumpMoreItems vs ++ [']']
  | .dict [] => ['\x7b', '\x7d']
  | .dict ((k, v) :: kvs) =>
      '\x7b' :: '"' :: escChars k.data ++ ['"'] ++ ':' :: ' ' :: dumpVal v ++
        dumpMoreEntries kvs ++ ['\x7d']

def dumpMoreItems : List PyVal → List Char
  | [] => []
  | v :: vs => ',' :: ' ' :: dumpVal v ++ dumpMoreItems vs

def dumpMoreEntries : List (String × PyVal) → List Char
  | [] => []
  | (k, v) :: kvs =>
      ',' :: ' ' :: '"' :: escChars k.data ++ ['"'] ++ ':' :: ' ' :: dumpVal v ++
        dumpMoreEntries kvs

end

def json_dumps (v : PyVal) : String := String.mk (dumpVal v)

/-! ## `json.loads` (strict decoder, recursive descent with fuel) -/

def hexVal (c : Char) : Option Nat :=
  if 48 ≤ c.toNat ∧ c.toNat ≤ 57 then some (c.toNat - 48)
  else if 97 ≤ c.toNat ∧ c.toNat ≤ 102 then some (c.toNat - 87)
  else if 65 ≤ c.toNat ∧ c.toNat ≤ 70 then some (c.toNat - 55)
  else none

def consStr (c : Char) (r : Option (List Char × List Char)) : Option (List Char × List Char) :=
  r.map (fun p => (c :: p.1, p.2))

def parseHex4 : List Char → Option (Nat × List Char)
  | h1 :: h2 :: h3 :: h4 :: r =>
    match hexVal h1, hexVal h2, hexVal h3, hexVal h4 with
    | some a, some b, some c, some d => some (a * 4096 + b * 256 + c * 16 + d, r)
    | _, _, _, _ => none
  | _ => none

/-- Decode a `\uXXXX` escape (the input starts after the `u`), combining a
high surrogate with the following `\uXXXX` low surrogate. -/
def parseUEsc (l : List Char) : Option (Char × List Char) :=
  match parseHex4 l with
  | none => none
  | some (n, r) =>
    if n < 55296 ∨ 57343 < n then some (Char.ofNat n, r)
    else if n < 56320 then
      match r with
      | e2 :: u2 :: r2 =>
        if e2 = '\\' ∧ u2 = 'u' then
          match parseHex4 r2 with
          | some (m, r3) =>
            if 56319 < m ∧ m < 57344 then
              some (Char.ofNat (65536 + (n - 55296) * 1024 + (m - 56320)), r3)
            else none
          | none => none
        else none
      | _ => none
    else none

/-- Decode one backslash escape (the input starts after the backslash). -/
def parseEscape : List Char → Option (Char × List Char)
  | [] => none
  | e :: r =>
    if e = '"' then some ('"', r)
    else if e = '\\' then some ('\\', r)
    else if e = '/' then some ('/', r)
    else if e = 'b' then some ('\x08', r)
    else if e = 'f' then some ('\x0c', r)
    else if e = 'n' then some ('\n', r)
    else if e = 'r' then some ('\r', r)
    else if e = 't' then some ('\t', r)
    else if e = 'u' then parseUEsc r
    else none

/-- Decode a string body up to the closing quote. The fuel only needs to
exceed the number of produced characters, since every step yields one. -/
def parseStringBody : Nat → List Char → Option (List Char × List Char)
  | 0, _ => none
  | _ + 1, [] => none
  | f + 1, c :: rest =>
    if c = '"' then some ([], rest)
    else if c = '\\' then
      match parseEscape rest with
      | some p => consStr p.1 (parseStringBody f p.2)
      | none => none
    else if c.toNat < 32 then none
    else consStr c (parseStringBody f rest)

def takeDigits : List Char → List Char × List Char
  | [] => ([], [])
  | c :: r =>
    if isDigitCh c then
      let p := takeDigits r
      (c :: p.1, p.2)
    else ([], c :: r)

def charsVal : Nat → List Char → Nat
  | a, [] => a
  | a, c :: r => charsVal (a * 10 + (c.toNat - 48)) r

def parseNat : List Char → Option (Nat × List Char)
  | [] => none
  | c :: r =>
    if c = '0' then some (0, r)
    else if isDigitCh c then
      let p := takeDigits r
      some (charsVal 0 (c :: p.1), p.2)
    else none

/-- A number followed by a fraction dot or an exponent would be a Python
float, which the value model does not hold; the decoder rejects it. -/
def numTail : List Char → PyVal → Option (PyVal × List Char)
  | [], v => some (v, [])
  | c :: r, v => if c = '.' ∨ c = 'e' ∨ c = 'E' then none else some (v, c :: r)

def parseNumber : List Char → Option (PyVal × List Char)
  | [] => none
  | c :: r =>
    if c = '-' then
      (parseNat r).bind (fun p => numTail p.2 (.int (-(p.1 : Int))))
    else
      (parseNat (c :: r)).bind (fun p => numTail p.2 (.int (p.1 : Int)))

mutual

def parseValue : Nat → List Char → Option (PyVal × List Char)
  | 0, _ => none
  | f + 1, l =>
    match skipWs l with
    | [] => none
    | c :: r =>
      if c = '\x7b' then parseMembers f r
      else if c = '[' then parseItems f r
      else if c = '"' then (parseStringBody (r.length + 1) r).map (fun p => (PyVal.str (String.mk p.1), p.2))
      else if c = 'n' then
        match r with
        | 'u' :: 'l' :: 'l' :: r2 => some (.null, r2)
        | _ => none
      else if c = 't' then
        match r with
        | 'r' :: 'u' :: 'e' :: r2 => some (.bool true, r2)
        | _ => none
      else if c = 'f' then
        match r with
        | 'a' :: 'l' :: 's' :: 'e' :: r2 => some (.bool false, r2)
        | _ => none
      else parseNumber (c :: r)

def parseItems : Nat → List Char → Option (PyVal × List Char)
  | 0, _ => none
  | f + 1, l =>
    match skipWs l with
    | [] => none
    | c :: r =>
      if c = ']' then some (.list [], r)
      else
        (parseValue f (c :: r)).bind (fun p =>
          (parseItemsRest f p.2).map (fun q => (.list (p.1 :: q.1), q.2)))

def parseItemsRest : Nat → List Char → Option (List PyVal × List Char)
  | 0, _ => none
  | f + 1, l =>
    match skipWs l with
    | [] => none
    | c :: r =>
      if c = ']' then some ([], r)
      else if c = ',' then
        (parseValue f r).bind (fun p =>
          (parseItemsRest f p.2).map (fun q => (p.1 :: q.1, q.2)))
      else none

def parseMembers : Nat → List Char → Option (PyVal × List Char)
  | 0, _ => none
  | f + 1, l =>
    match skipWs l with
    | [] => none
    | c :: r =>
      if c = '\x7d' then some (.dict [], r)
      else if c = '"' then
        (parseStringBody (r.length + 1) r).bind (fun p =>
          match skipWs p.2 with
          | c2 :: r2 =>
            if c2 = ':' then
              (parseValue f r2).bind (fun q =>
                (parseMembersRest f q.2).map
                  (fun w => (.dict ((String.mk p.1, q.1) :: w.1), w.2)))
            else none
          | [] => none)
      else none

def parseMembersRest : Nat → List Char → Option (List (String × PyVal) × List Char)
  | 0, _ => none
  | f + 1, l =>
    match skipWs l with
    | [] => none
    | c :: r =>
      if c = '\x7d' then some ([], r)
      else if c = ',' then
        match skipWs r with
        | c2 :: r2 =>
          if c2 = '"' then
            (parseStringBody (r2.length + 1) r2).bind (fun p =>
              match skipWs p.2 with
              | c3 :: r3 =>
                if c3 = ':' then
                  (parseValue f r3).bind (fun q =>
                    (parseMembersRest f q.2).map
                      (fun w => ((String.mk p.1, q.1) :: w.1, w.2)))
                else none
              | [] => none)
          else none
        | [] => none
      else none

end

/-- Decode a JSON document. The fuel `2 * length + 2` dominates the recursion
depth: every two recursion steps consume at least one character. -/
def json_loads (s : String) : Option PyVal :=
  match parseValue (2 * s.data.length + 2) s.data with
  | some (v, rest) => if skipWs rest = [] then some v else none
  | none => none

def isValidJson (s : String) : Bool := (json_loads s).isSome

end Swarm
namespace Swarm

/-! ## Python string operations used by the heuristic tool-call extraction -/

def containsCh (c : Char) : List Char → Bool
  | [] => false
  | x :: xs => x = c || containsCh c xs

/-- Index of the first occurrence of `c`; meaningful only under a
`containsCh` guard, exactly as Python's `str.find` is used in the source. -/
def pyFindIdx (c : Char) : List Char → Nat
  | [] => 0
  | x :: xs => if x = c then 0 else 1 + pyFindIdx c xs

/-- Python `str.split(sep)` for a one-character separator. -/
def splitCh (c : Char) : List Char → List (List Char)
  | [] => [[]]
  | x :: xs =>
    if x = c then [] :: splitCh c xs
    else
      match splitCh c xs with
      | s :: ss => (x :: s) :: ss
      | [] => [[x]]

/-- The whitespace set of Python `str.strip()`, restricted to ASCII. -/
def isPySpace (c : Char) : Bool :=
  c = ' ' || c = '\t' || c = '\n' || c = '\r' || c = '\x0b' || c = '\x0c'

def pyStrip (l : List Char) : List Char :=
  ((l.dropWhile isPySpace).reverse.dropWhile isPySpace).reverse

def leadsWith : List Char → List Char → Bool
  | [], _ => true
  | _ :: _, [] => false
  | p :: ps, c :: cs => p = c && leadsWith ps cs

/-- Python `str.replace(old, "")` for a non-empty `old`: remove every
left-to-right non-overlapping occurrence. The fuel is the input length,
which bounds the recursion. -/
def replaceAllAux (p : Char) (ps : List Char) : Nat → List Char → List Char
  | _, [] => []
  | 0, l => l
  | f + 1, c :: cs =>
    if leadsWith (p :: ps) (c :: cs) then replaceAllAux p ps f (cs.drop ps.length)
    else c :: replaceAllAux p ps f cs

def replaceAll (pat : List Char) (l : List Char) : List Char :=
  match pat with
  | [] => l
  | p :: ps => replaceAllAux p ps l.length l

/-! ## Data model of `swarm/ollama/wrapper.py` -/

/-- The `function` member of a raw tool-call dict; `arguments` may be a raw
string or a structured object, mirroring the untyped Python dict. -/
structure RawFuncData where
  name : Option String := Option.none
  arguments : Option PyVal := Option.none

/-- Dataclass `Function`. The Python field is annotated `str` but unchecked;
`arguments` keeps the `PyVal` it was given (a string unless the source
supplied another shape). -/
structure Function where
  name : String
  arguments : PyVal

/-- Classmethod `Function.from_ollama`: a dict argument value is serialized
with `json.dumps`; any other value is kept as-is. -/
def Function.from_ollama (fd : RawFuncData) : Function :=
  let arguments := fd.arguments.getD (PyVal.dict [])
  let arguments :=
    match arguments with
    | PyVal.dict d => PyVal.str (json_dumps (PyVal.dict d))
    | v => v
  { name := fd.name.getD (""), arguments := arguments }

/-- Dataclass `ToolCall`. -/
structure ToolCall where
  id : String
  type : String
  function : Function

/-- Dataclass `Message`; `tool_calls` is `None` unless populated. -/
structure Message where
  content : String
  role : String
  tool_calls : Option (List ToolCall) := Option.none

/-- Dataclass `Choice`. -/
structure Choice where
  message : Message

/-- A raw tool-call dict inside a raw runtime response. -/
structure RawToolCallData where
  id : Option String := Option.none
  type : Option String := Option.none
  function : Option RawFuncData := Option.none

/-- The `message` dict of a raw runtime response; every field may be absent. -/
structure RawMessageData where
  content : Option String := Option.none
  role : Option String := Option.none
  tool_calls : Option (List RawToolCallData) := Option.none

/-- A raw runtime response dict; the `message` key may be absent. -/
structure RawResponse where
  message : Option RawMessageData := Option.none

/-- The loop in `WrappedResponse.__init__` building tool calls: the default
id is `call_<current length of the accumulator>`, i.e. the index. -/
def buildToolCalls : Nat → List RawToolCallData → List ToolCall
  | _, [] => []
  | i, tc :: rest =>
    { id := tc.id.getD ("call_" ++ toString i),
      type := tc.type.getD ("function"),
      function := Function.from_ollama (tc.function.getD {}) } :: buildToolCalls (i + 1) rest

/-- Class `WrappedResponse`: exactly one `Choice` wrapping one `Message`. -/
structure WrappedResponse where
  choices : List Choice

/-- Constructor `WrappedResponse.__init__`: missing `message`, `content` or
`role` default to empty; `tool_calls` is attached only when the key is
present. -/
def WrappedResponse.ofRaw (r : RawResponse) : WrappedResponse :=
  let md := r.message.getD {}
  let base : Message := { content := md.content.getD (""), role := md.role.getD ("") }
  let msg :=
    match md.tool_calls with
    | Option.none => base
    | Option.some tcs => { base with tool_calls := Option.some (buildToolCalls 0 tcs) }
  { choices := [{ message := msg }] }

/-! ## Exceptions

`Exc.cause` models `__cause__` (set only by `raise ... from e`);
`Exc.context` models the implicit `__context__` (set by any raise inside an
`except` block). The kinds are the spec's names for the Python types used
by the source: `modelError` is the `NameError` raised for a runtime
`ResponseError`, `connectionFailure` is `ConnectionError`, and
`operationFailure` is `RuntimeError`; `keyError` is a raw `KeyError` from a
dict lookup. -/

inductive ExcKind where
  | keyError : ExcKind
  | modelError : ExcKind
  | connectionFailure : ExcKind
  | operationFailure : ExcKind
deriving DecidableEq

structure Exc where
  kind : ExcKind
  msg : String
  cause : Option String := Option.none
  context : Option String := Option.none
deriving DecidableEq

def keyErr (k : String) : Exc := { kind := ExcKind.keyError, msg := k }

/-! ## The chat-completions shim (`ChatCompletions.create`) -/

/-- One inbound message: a Python dict with string values (the shim reads
only string-valued fields). -/
def dictGet (d : List (String × String)) (k : String) : Option String :=
  match d with
  | [] => Option.none
  | (k2, v) :: rest => if k2 = k then Option.some v else dictGet rest k

/-- A cleaned message holds exactly the forwarded fields. -/
structure CleanMsg where
  role : String
  content : String
deriving DecidableEq

/-- The cleaning loop: `{"role": msg["role"], "content": msg["content"]}`;
a missing key raises `KeyError`. -/
def cleanMessages : List (List (String × String)) → Except Exc (List CleanMsg)
  | [] => Except.ok []
  | m :: ms =>
    match dictGet m ("role") with
    | Option.none => Except.error (keyErr ("role"))
    | Option.some r =>
      match dictGet m ("content") with
      | Option.none => Except.error (keyErr ("content"))
      | Option.some c => (cleanMessages ms).map (fun rest => { role := r, content := c } :: rest)

/-- The `parameters` dict of an inbound tool descriptor. -/
structure RawToolParams where
  properties : Option PyVal := Option.none
  required : Option (List String) := Option.none

/-- The `function` dict of an inbound tool descriptor. -/
structure RawToolFunction where
  name : Option String := Option.none
  description : Option String := Option.none
  parameters : Option RawToolParams := Option.none

/-- An inbound tool descriptor; only its `function` key is read. -/
structure RawTool where
  function : Option RawToolFunction := Option.none

structure FormattedParams where
  type : String
  properties : PyVal
  required : List String
 
structure FormattedFunction where
  name : String
  description : String
  parameters : FormattedParams

structure FormattedTool where
  type : String
  function : FormattedFunction

/-- The tool-formatting loop body: raw key lookups raise `KeyError` in the
order Python evaluates the dict literal (`function`, `name`, then
`parameters` and `properties`); `description` and `required` use `.get`
defaults. -/
def formatTool (t : RawTool) : Except Exc FormattedTool :=
  match t.function with
  | Option.none => Except.error (keyErr ("function"))
  | Option.some f =>
    match f.name with
    | Option.none => Except.error (keyErr ("name"))
    | Option.some nm =>
      match f.parameters with
      | Option.none => Except.error (keyErr ("parameters"))
      | Option.some ps =>
        match ps.properties with
        | Option.none => Except.error (keyErr ("properties"))
        | Option.some props =>
          Except.ok
            { type := "function",
              function :=
                { name := nm,
                  description := f.description.getD (""),
                  parameters :=
                    { type := "object",
                      properties := props,
                      required := ps.required.getD [] } } }

def formatTools : List RawTool → Except Exc (List FormattedTool)
  | [] => Except.ok []
  | t :: ts => (formatTool t).bind (fun ft => (formatTools ts).map (fun rest => ft :: rest))

/-- The keyword arguments handed to the runtime's `chat` call. -/
structure ChatRequest where
  model : String
  messages : List CleanMsg
  stream : Bool
  tools : Option (List FormattedTool)

/-- Outcome of the runtime's `chat` call: a raw response, or one of the
exception types caught by the shim (each carrying its `str(e)` text). -/
inductive ChatOutcome where
  | success : RawResponse → ChatOutcome
  | responseError : String → ChatOutcome
  | connectError : String → ChatOutcome
  | otherError : String → ChatOutcome

/-- The slice `content[content.find("[") + 1 : content.find("]")]`, the
Python slice being empty whenever the stop lies at or before the start. -/
def bracketSlice (cs : List Char) : List Char :=
  (cs.drop (pyFindIdx '[' cs + 1)).take (pyFindIdx ']' cs - (pyFindIdx '[' cs + 1))

/-- Python `function_call.split("(")[0].strip()`. -/
def heurFuncName (fc : List Char) : List Char := pyStrip ((splitCh '(' fc).getD 0 [])

/-- Python `function_call.split("(")[1].split(")")[0].strip()`. -/
def heurFuncArgs (fc : List Char) : List Char :=
  pyStrip ((splitCh ')' ((splitCh '(' fc).getD 1 [])).getD 0 [])

/-- The heuristic bracket parser applied to the raw response inside the
`try` block. The outer guard reads the content through `.get` defaults, so
a missing `message` or `content` never raises. -/
def heuristicStep (r : RawResponse) : RawResponse :=
  match r.message with
  | Option.none => r
  | Option.some md =>
    match md.content with
    | Option.none => r
    | Option.some content =>
      let cs := content.data
      if containsCh '[' cs ∧ containsCh ']' cs then
        let function_call := bracketSlice cs
        if containsCh '(' function_call ∧ containsCh ')' function_call then
          let func_name := heurFuncName function_call
          let func_args := heurFuncArgs function_call
          let argStr : String :=
            if func_args = [] then String.mk ['\x7b', '\x7d'] else String.mk func_args
          let tc : RawToolCallData :=
            { id := Option.some ("call_1"),
              type := Option.some ("function"),
              function := Option.some
                { name := Option.some (String.mk func_name),
                  arguments := Option.some (PyVal.str argStr) } }
          { message := Option.some
              { md with
                content := Option.some (String.mk
                  (pyStrip (replaceAll ('[' :: function_call ++ [']']) cs))),
                tool_calls := Option.some [tc] } }
        else r
      else r

/-- The `try` block's dispatch and the three `except` clauses. None of the
re-raises uses `from e`, so `cause` stays `none` and only the implicit
`context` carries the original error. -/
def dispatch (chat : ChatRequest → ChatOutcome) (req : ChatRequest) :
    Except Exc WrappedResponse :=
  match chat req with
  | ChatOutcome.success r => Except.ok (WrappedResponse.ofRaw (heuristicStep r))
  | ChatOutcome.responseError e =>
      Except.error
        { kind := ExcKind.modelError, msg := "LLM model error: " ++ e,
          cause := Option.none, context := Option.some e }
  | ChatOutcome.connectError e =>
      Except.error
        { kind := ExcKind.connectionFailure,
          msg := "Connection error occurred.. Is the `ollama serve` running?: " ++ e,
          cause := Option.none, context := Option.some e }
  | ChatOutcome.otherError e =>
      Except.error
        { kind := ExcKind.operationFailure, msg := "Failed to get chat response: " ++ e,
          cause := Option.none, context := Option.some e }

/-- Method `ChatCompletions.create`. The runtime client is passed as the
function `chat`; message cleaning and tool formatting happen before the
`try` block, so their `KeyError`s escape unmapped. `if tools:` is Python
truthiness: `None` and `[]` both skip the tools branch. -/
def ChatCompletions.create (chat : ChatRequest → ChatOutcome)
    (messages : List (List (String × String))) (model : String) (stream : Bool)
    (tools : Option (List RawTool)) : Except Exc WrappedResponse :=
  match cleanMessages messages with
  | Except.error e => Except.error e
  | Except.ok cm =>
    match tools with
    | Option.some (t :: ts) =>
      match formatTools (t :: ts) with
      | Except.error e => Except.error e
      | Except.ok ft =>
          dispatch chat { model := model, messages := cm, stream := stream,
                          tools := Option.some ft }
    | _ =>
        dispatch chat { model := model, messages := cm, stream := stream,
                        tools := Option.none }

/-! ## The client factory (`swarm/ollama/clientOllama.py`) -/

/-- The underlying `ollama.Client`, held by host URL. -/
structure OllamaClient where
  host : String

/-- The wrapper object returned by the factory. -/
structure OllamaWrapper where
  client : OllamaClient

/-- Function `GetClientOllama`: the `ollama.Client` constructor is passed as
`mkClient`; the `except` clause re-raises `ConnectionError(...) from e`, so
both `cause` and `context` carry the original error. -/
def GetClientOllama (mkClient : String → Except String OllamaClient)
    (base_url : String) : Except Exc OllamaWrapper :=
  match mkClient base_url with
  | Except.ok c => Except.ok { client := c }
  | Except.error e =>
      Except.error
        { kind := ExcKind.connectionFailure,
          msg := "Failed to connect to Ollama at " ++ base_url ++
            ". Make sure Ollama is running and the URL is correct. Error: " ++ e,
          cause := Option.some e, context := Option.some e }

end Swarm

namespace Swarm

theorem hexVal_hexDig (d : Nat) (h : d < 16) : hexVal (hexDig d) = some d := by
  interval_cases d <;> rfl

theorem consStr_some (c : Char) (cs rest : List Char) :
    consStr c (some (cs, rest)) = some (c :: cs, rest) := rfl

theorem parseHex4_hex4 (n : Nat) (rest : List Char) (h : n < 65536) :
    parseHex4 (hex4 n ++ rest) = some (n, rest) := by
  have hv1 : hexVal (hexDig (n / 4096 % 16)) = some (n / 4096 % 16) :=
    hexVal_hexDig _ (Nat.mod_lt _ (by norm_num))
  have hv2 : hexVal (hexDig (n / 256 % 16)) = some (n / 256 % 16) :=
    hexVal_hexDig _ (Nat.mod_lt _ (by norm_num))
  have hv3 : hexVal (hexDig (n / 16 % 16)) = some (n / 16 % 16) :=
    hexVal_hexDig _ (Nat.mod_lt _ (by norm_num))
  have hv4 : hexVal (hexDig (n % 16)) = some (n % 16) :=
    hexVal_hexDig _ (Nat.mod_lt _ (by norm_num))
  have hn : n / 4096 % 16 * 4096 + n / 256 % 16 * 256 + n / 16 % 16 * 16 + n % 16 = n := by
    omega
  simp only [hex4, List.cons_append, List.nil_append, parseHex4, hv1, hv2, hv3, hv4, hn]

theorem parseSB_bs (f : Nat) (l : List Char) :
    parseStringBody (f + 1) ('\\' :: l) =
      (match parseEscape l with
       | some p => consStr p.1 (parseStringBody f p.2)
       | none => none) := by
  simp [parseStringBody]

theorem parseEscape_u (l : List Char) : parseEscape ('u' :: l) = parseUEsc l := by
  simp [parseEscape]

theorem escStep_plain (c : Char) (suffix : List Char) (f : Nat)
    (h1 : ¬c = '\\') (h2 : ¬c = '"') (h3 : ¬c = '\x08') (h4 : ¬c = '\x0c')
    (h5 : ¬c = '\n') (h6 : ¬c = '\r') (h7 : ¬c = '\t')
    (h8 : 32 ≤ c.toNat ∧ c.toNat ≤ 126) :
    parseStringBody (f + 1) (escapeChar c ++ suffix) = consStr c (parseStringBody f suffix) := by
  have e1 : escapeChar c = [c] := by
    simp [escapeChar, h1, h2, h3, h4, h5, h6, h7, h8]
  have hlt : ¬c.toNat < 32 := by omega
  rw [e1, List.cons_append, List.nil_append, parseStringBody.eq_def]
  simp only [h1, h2, hlt, if_false, ite_false]

theorem escStep_bmp (c : Char) (suffix : List Char) (f : Nat)
    (h1 : ¬c = '\\') (h2 : ¬c = '"') (h3 : ¬c = '\x08') (h4 : ¬c = '\x0c')
    (h5 : ¬c = '\n') (h6 : ¬c = '\r') (h7 : ¬c = '\t')
    (h8 : ¬(32 ≤ c.toNat ∧ c.toNat ≤ 126)) (h9 : c.toNat < 65536) :
    parseStringBody (f + 1) (escapeChar c ++ suffix) = consStr c (parseStringBody f suffix) := by
  have e1 : escapeChar c = '\\' :: 'u' :: hex4 c.toNat := by
    simp [escapeChar, h1, h2, h3, h4, h5, h6, h7, h8, h9]
  have hrange : c.toNat < 55296 ∨ 57343 < c.toNat := by
    rcases charValidFacts c with h | h
    · exact Or.inl h
    · exact Or.inr h.1
  have hu : parseUEsc (hex4 c.toNat ++ suffix) = some (c, suffix) := by
    rw [parseUEsc, parseHex4_hex4 _ _ h9]
    simp only [if_pos hrange, Char.ofNat_toNat]
  rw [e1]
  simp only [List.cons_append]
  rw [parseSB_bs, parseEscape_u, hu]

theorem escStep_astral (c : Char) (suffix : List Char) (f : Nat)
    (h1 : ¬c = '\\') (h2 : ¬c = '"') (h3 : ¬c = '\x08') (h4 : ¬c = '\x0c')
    (h5 : ¬c = '\n') (h6 : ¬c = '\r') (h7 : ¬c = '\t')
    (h8 : ¬(32 ≤ c.toNat ∧ c.toNat ≤ 126)) (h9 : ¬c.toNat < 65536) :
    parseStringBody (f + 1) (escapeChar c ++ suffix) = consStr c (parseStringBody f suffix) := by
  have e1 : escapeChar c =
      '\\' :: 'u' :: hex4 (55296 + (c.toNat - 65536) / 1024) ++
        '\\' :: 'u' :: hex4 (56320 + (c.toNat - 65536) % 1024) := by
    simp [escapeChar, h1, h2, h3, h4, h5, h6, h7, h8, h9]
  have hc : c.toNat < 1114112 := by
    rcases charValidFacts c with h | h
    · omega
    · exact h.2
  have hhi : 55296 + (c.toNat - 65536) / 1024 < 65536 := by omega
  have hlo : 56320 + (c.toNat - 65536) % 1024 < 65536 := by omega
  have hnr1 : ¬(55296 + (c.toNat - 65536) / 1024 < 55296 ∨
      57343 < 55296 + (c.toNat - 65536) / 1024) := by omega
  have hnr2 : 55296 + (c.toNat - 65536) / 1024 < 56320 := by omega
  have hmr : 56319 < 56320 + (c.toNat - 65536) % 1024 ∧
      56320 + (c.toNat - 65536) % 1024 < 57344 := by omega
  have hu : parseUEsc (hex4 (55296 + (c.toNat - 65536) / 1024) ++
      ('\\' :: ('u' :: (hex4 (56320 + (c.toNat - 65536) % 1024) ++ suffix)))) =
      some (c, suffix) := by
    rw [parseUEsc, parseHex4_hex4 _ _ hhi]
    simp only [if_neg hnr1, if_pos hnr2]
    rw [if_pos (⟨trivial, trivial⟩ : True ∧ True)]
    rw [parseHex4_hex4 _ _ hlo]
    simp only [if_pos hmr]
    rw [(by omega : 65536 + (55296 + (c.toNat - 65536) / 1024 - 55296) * 1024 +
      (56320 + (c.toNat - 65536) % 1024 - 56320) = c.toNat), Char.ofNat_toNat]
  rw [e1]
  simp only [List.cons_append, List.append_assoc]
  rw [parseSB_bs, parseEscape_u, hu]

theorem escStep_bs (suffix : List Char) (f : Nat) :
    parseStringBody (f + 1) (escapeChar '\\' ++ suffix) = consStr '\\' (parseStringBody f suffix) := by
  simp [escapeChar, parseStringBody, parseEscape]

theorem escStep_q (suffix : List Char) (f : Nat) :
    parseStringBody (f + 1) (escapeChar '"' ++ suffix) = consStr '"' (parseStringBody f suffix) := by
  simp [escapeChar, parseStringBody, parseEscape]

theorem escStep_b8 (suffix : List Char) (f : Nat) :
    parseStringBody (f + 1) (escapeChar '\x08' ++ suffix) = consStr '\x08' (parseStringBody f suffix) := by
  simp [escapeChar, parseStringBody, parseEscape]

theorem escStep_ff (suffix : List Char) (f : Nat) :
    parseStringBody (f + 1) (escapeChar '\x0c' ++ suffix) = consStr '\x0c' (parseStringBody f suffix) := by
  simp [escapeChar, parseStringBody, parseEscape]

theorem escStep_nl (suffix : List Char) (f : Nat) :
    parseStringBody (f + 1) (escapeChar '\n' ++ suffix) = consStr '\n' (parseStringBody f suffix) := by
  simp [escapeChar, parseStringBody, parseEscape]

theorem escStep_cr (suffix : List Char) (f : Nat) :
    parseStringBody (f + 1) (escapeChar '\r' ++ suffix) = consStr '\r' (parseStringBody f suffix) := by
  simp [escapeChar, parseStringBody, parseEscape]

theorem escStep_tab (suffix : List Char) (f : Nat) :
    parseStringBody (f + 1) (escapeChar '\t' ++ suffix) = consStr '\t' (parseStringBody f suffix) := by
  simp [escapeChar, parseStringBody, parseEscape]

/-- Decoding one escaped character undoes `escapeChar`, whatever the
remaining input is. -/
theorem parseStringBody_escapeChar (c : Char) (suffix : List Char) (f : Nat) :
    parseStringBody (f + 1) (escapeChar c ++ suffix) = consStr c (parseStringBody f suffix) := by
  by_cases h1 : c = '\\'
  · subst h1; exact escStep_bs suffix f
  by_cases h2 : c = '"'
  · subst h2; exact escStep_q suffix f
  by_cases h3 : c = '\x08'
  · subst h3; exact escStep_b8 suffix f
  by_cases h4 : c = '\x0c'
  · subst h4; exact escStep_ff suffix f
  by_cases h5 : c = '\n'
  · subst h5; exact escStep_nl suffix f
  by_cases h6 : c = '\r'
  · subst h6; exact escStep_cr suffix f
  by_cases h7 : c = '\t'
  · subst h7; exact escStep_tab suffix f
  by_cases h8 : 32 ≤ c.toNat ∧ c.toNat ≤ 126
  · exact escStep_plain c suffix f h1 h2 h3 h4 h5 h6 h7 h8
  by_cases h9 : c.toNat < 65536
  · exact escStep_bmp c suffix f h1 h2 h3 h4 h5 h6 h7 h8 h9
  · exact escStep_astral c suffix f h1 h2 h3 h4 h5 h6 h7 h8 h9

/-- Decoding an escaped string undoes `escChars` up to the closing quote,
given fuel exceeding the number of produced characters. -/
theorem parseStringBody_escChars (cs : List Char) :
    ∀ fuel rest, cs.length < fuel →
      parseStringBody fuel (escChars cs ++ '"' :: rest) = some (cs, rest) := by
  induction cs with
  | nil =>
    intro fuel rest h
    match fuel, h with
    | f + 1, _ => simp [escChars, parseStringBody]
  | cons c cs ih =>
    intro fuel rest h
    match fuel, h with
    | f + 1, h =>
      rw [escChars, List.append_assoc, parseStringBody_escapeChar,
        ih f rest (by simpa using Nat.lt_of_succ_lt_succ h), consStr_some]

end Swarm

namespace Swarm

/-- The next character cannot extend or alter a just-parsed number: not a
digit, dot or exponent letter. -/
def numDelimB : List Char → Bool
  | [] => true
  | c :: _ => !(isDigitCh c || c = '.' || c = 'e' || c = 'E')

theorem numDelimB_head (rest : List Char) (hr : numDelimB rest = true) :
    ∀ c, rest.head? = some c → isDigitCh c = false := by
  cases rest with
  | nil => intro c h; cases h
  | cons c r =>
    intro d h
    simp only [List.head?] at h
    cases h
    simp only [numDelimB, Bool.not_eq_true', Bool.or_eq_false_iff] at hr
    exact hr.1.1.1

theorem charsVal_append (xs : List Char) :
    ∀ a ys, charsVal a (xs ++ ys) = charsVal (charsVal a xs) ys := by
  induction xs with
  | nil => intro a ys; rfl
  | cons c cs ih =>
    intro a ys
    rw [List.cons_append]
    rw [show charsVal a (c :: (cs ++ ys)) = charsVal (a * 10 + (c.toNat - 48)) (cs ++ ys) from rfl]
    rw [show charsVal a (c :: cs) = charsVal (a * 10 + (c.toNat - 48)) cs from rfl]
    exact ih _ ys

theorem natCharsAux_zero (f : Nat) (acc : List Char) : natCharsAux f 0 acc = acc := by
  cases f <;> rfl

theorem natCharsAux_acc (f : Nat) :
    ∀ n acc, natCharsAux f n acc = natCharsAux f n [] ++ acc := by
  induction f with
  | zero => intro n acc; simp [natCharsAux]
  | succ f ih =>
    intro n acc
    cases n with
    | zero => simp [natCharsAux]
    | succ n =>
      rw [natCharsAux, natCharsAux, ih ((n + 1) / 10) (digitCh ((n + 1) % 10) :: acc),
        ih ((n + 1) / 10) [digitCh ((n + 1) % 10)], List.append_assoc]
      rfl

theorem natCharsAux_val (f : Nat) :
    ∀ n, n ≤ f → charsVal 0 (natCharsAux f n []) = n := by
  induction f with
  | zero =>
    intro n h
    interval_cases n
    rfl
  | succ f ih =>
    intro n h
    cases n with
    | zero => rfl
    | succ n =>
      have hq : (n + 1) / 10 ≤ f := by
        have := Nat.div_lt_self (Nat.succ_pos n) (by norm_num : 1 < 10)
        omega
      have hr : (n + 1) % 10 < 10 := Nat.mod_lt _ (by norm_num)
      rw [natCharsAux, natCharsAux_acc, charsVal_append, ih _ hq]
      show (n + 1) / 10 * 10 + ((digitCh ((n + 1) % 10)).toNat - 48) = n + 1
      rw [digitCh_toNat _ hr]
      omega

theorem natCharsAux_digits (f : Nat) :
    ∀ n c, c ∈ natCharsAux f n [] → 48 ≤ c.toNat ∧ c.toNat ≤ 57 := by
  induction f with
  | zero => intro n c h; cases h
  | succ f ih =>
    intro n c h
    cases n with
    | zero => cases h
    | succ n =>
      rw [natCharsAux, natCharsAux_acc] at h
      rcases List.mem_append.mp h with h | h
      · exact ih _ c h
      · have hr : (n + 1) % 10 < 10 := Nat.mod_lt _ (by norm_num)
        rcases List.mem_singleton.mp h with rfl
        rw [digitCh_toNat _ hr]
        omega

theorem natCharsAux_head (f : Nat) :
    ∀ n, 1 ≤ n → n ≤ f →
      ∃ c tl, natCharsAux f n [] = c :: tl ∧ 49 ≤ c.toNat ∧ c.toNat ≤ 57 := by
  induction f with
  | zero => intro n h1 h2; omega
  | succ f ih =>
    intro n h1 h2
    cases n with
    | zero => omega
    | succ n =>
      rw [natCharsAux, natCharsAux_acc]
      by_cases hq : (n + 1) / 10 = 0
      · rw [hq, natCharsAux_zero, List.nil_append]
        refine ⟨digitCh ((n + 1) % 10), [], rfl, ?_⟩
        have hlt : n + 1 < 10 := by omega
        have : (n + 1) % 10 = n + 1 := Nat.mod_eq_of_lt hlt
        rw [digitCh_toNat _ (by omega)]
        omega
      · have hqf : (n + 1) / 10 ≤ f := by
          have := Nat.div_lt_self (Nat.succ_pos n) (by norm_num : 1 < 10)
          omega
        obtain ⟨c, tl, he, hc⟩ := ih ((n + 1) / 10) (by omega) hqf
        exact ⟨c, tl ++ [digitCh ((n + 1) % 10)], by rw [he]; rfl, hc⟩

theorem natChars_val (n : Nat) : charsVal 0 (natChars n) = n := by
  by_cases h : n = 0
  · subst h; rfl
  · rw [natChars, if_neg h]
    exact natCharsAux_val n n le_rfl

theorem natChars_shape (n : Nat) :
    ∃ c tl, natChars n = c :: tl ∧ 48 ≤ c.toNat ∧ c.toNat ≤ 57 ∧
      (∀ d ∈ tl, 48 ≤ d.toNat ∧ d.toNat ≤ 57) ∧ (n ≠ 0 → 49 ≤ c.toNat) := by
  by_cases h : n = 0
  · subst h
    refine ⟨'0', [], rfl, by decide, by decide, ?_, ?_⟩
    · intro d hd
      exact absurd hd (List.not_mem_nil d)
    · intro hh
      exact absurd rfl hh
  · rw [natChars, if_neg h]
    obtain ⟨c, tl, he, hc1, hc2⟩ := natCharsAux_head n n (by omega) le_rfl
    refine ⟨c, tl, he, by omega, hc2, ?_, fun _ => hc1⟩
    intro d hd
    exact natCharsAux_digits n n d (by rw [he]; exact List.mem_cons_of_mem c hd)

theorem takeDigits_exact (tl : List Char) :
    ∀ rest, (∀ c ∈ tl, 48 ≤ c.toNat ∧ c.toNat ≤ 57) →
      (∀ c, rest.head? = some c → isDigitCh c = false) →
      takeDigits (tl ++ rest) = (tl, rest) := by
  induction tl with
  | nil =>
    intro rest _ hr
    cases rest with
    | nil => rfl
    | cons c r =>
      have := hr c rfl
      simp [takeDigits, this]
  | cons d tl ih =>
    intro rest hd hr
    have hdd : isDigitCh d = true := by
      have := hd d (List.mem_cons_self d tl)
      simp only [isDigitCh, Bool.and_eq_true, decide_eq_true_eq]
      omega
    simp only [List.cons_append, takeDigits, hdd, if_true, List.append_eq]
    rw [ih rest (fun c hc => hd c (List.mem_cons_of_mem d hc)) hr]

theorem parseNat_natChars (n : Nat) (rest : List Char)
    (hr : ∀ c, rest.head? = some c → isDigitCh c = false) :
    parseNat (natChars n ++ rest) = some (n, rest) := by
  by_cases h : n = 0
  · subst h
    simp [natChars, parseNat]
  · obtain ⟨c, tl, he, _, hc2, htl, h49⟩ := natChars_shape n
    have hc1 : 49 ≤ c.toNat := h49 h
    have hne : ¬c = '0' := by
      rw [charEqIff]
      simp only [show ('0' : Char).toNat = 48 from rfl]
      omega
    have hdd : isDigitCh c = true := by
      simp only [isDigitCh, Bool.and_eq_true, decide_eq_true_eq]
      omega
    rw [he, List.cons_append, parseNat.eq_def]
    simp only [hne, if_false, ite_false, hdd, if_true]
    rw [takeDigits_exact tl rest htl hr]
    have : charsVal 0 (c :: tl) = n := by
      rw [← he]
      exact natChars_val n
    simp [this]

theorem numTail_delim (rest : List Char) (v : PyVal) (hr : numDelimB rest = true) :
    numTail rest v = some (v, rest) := by
  cases rest with
  | nil => rfl
  | cons c r =>
    simp only [numDelimB, Bool.not_eq_true', Bool.or_eq_false_iff] at hr
    obtain ⟨⟨⟨_, h1⟩, h2⟩, h3⟩ := hr
    have hcond : ¬(c = '.' ∨ c = 'e' ∨ c = 'E') := by
      simp only [decide_eq_false_iff_not] at h1 h2 h3
      tauto
    rw [numTail, if_neg hcond]

theorem parseNumber_intChars (i : Int) (rest : List Char) (hr : numDelimB rest = true) :
    parseNumber (intChars i ++ rest) = some (.int i, rest) := by
  have hhead := numDelimB_head rest hr
  by_cases h : i < 0
  · have e1 : intChars i = '-' :: natChars i.natAbs := by rw [intChars, if_pos h]
    rw [e1, List.cons_append, parseNumber.eq_def]
    simp only [reduceIte]
    rw [parseNat_natChars _ _ hhead]
    have hval : -(i.natAbs : Int) = i := by omega
    show numTail rest (PyVal.int (-(i.natAbs : Int))) = some (PyVal.int i, rest)
    rw [hval, numTail_delim _ _ hr]
  · have e1 : intChars i = natChars i.toNat := by rw [intChars, if_neg h]
    obtain ⟨c, tl, he, hc1, hc2, _, _⟩ := natChars_shape i.toNat
    have hne : ¬c = '-' := by
      rw [charEqIff]
      simp only [show ('-' : Char).toNat = 45 from rfl]
      omega
    rw [e1, he, List.cons_append, parseNumber.eq_def]
    dsimp only
    rw [if_neg hne, ← List.cons_append, ← he, parseNat_natChars _ _ hhead]
    have hval : (i.toNat : Int) = i := by omega
    show numTail rest (PyVal.int (i.toNat : Int)) = some (PyVal.int i, rest)
    rw [hval, numTail_delim _ _ hr]

end Swarm

namespace Swarm

/-! ## A size measure for fuel accounting -/

mutual

def pySize : PyVal → Nat
  | .null => 1
  | .bool _ => 1
  | .int _ => 1
  | .str _ => 1
  | .list l => 1 + pySizeItems l
  | .dict l => 1 + pySizeEntries l

def pySizeItems : List PyVal → Nat
  | [] => 1
  | v :: vs => 1 + pySize v + pySizeItems vs

def pySizeEntries : List (String × PyVal) → Nat
  | [] => 1
  | (_, v) :: kvs => 1 + pySize v + pySizeEntries kvs

end

theorem pySize_pos (v : PyVal) : 1 ≤ pySize v := by
  cases v <;> simp [pySize]

theorem pySizeItems_pos (vs : List PyVal) : 1 ≤ pySizeItems vs := by
  cases vs with
  | nil => simp [pySizeItems]
  | cons v vs => simp [pySizeItems]; omega

theorem pySizeEntries_pos (kvs : List (String × PyVal)) : 1 ≤ pySizeEntries kvs := by
  cases kvs with
  | nil => simp [pySizeEntries]
  | cons kv kvs =>
    cases kv
    simp [pySizeEntries]
    omega

/-- Structural induction over the nested value type, with membership
hypotheses for lists and dicts. -/
theorem pyValInd (P : PyVal → Prop)
    (hnull : P .null) (hbool : ∀ b, P (.bool b)) (hint : ∀ i, P (.int i))
    (hstr : ∀ s, P (.str s))
    (hlist : ∀ l, (∀ v ∈ l, P v) → P (.list l))
    (hdict : ∀ l, (∀ kv ∈ l, P kv.2) → P (.dict l)) :
    ∀ v, P v
  | .null => hnull
  | .bool b => hbool b
  | .int i => hint i
  | .str s => hstr s
  | .list l => hlist l (fun v hv =>
      have : sizeOf v < 1 + sizeOf l := by
        have := List.sizeOf_lt_of_mem hv
        omega
      pyValInd P hnull hbool hint hstr hlist hdict v)
  | .dict l => hdict l (fun kv hkv =>
      have : sizeOf kv.2 < 1 + sizeOf l := by
        have h1 := List.sizeOf_lt_of_mem hkv
        have h2 : sizeOf kv.2 < sizeOf kv := by
          cases kv with
          | mk a b => simp only [Prod.mk.sizeOf_spec]; omega
        omega
      pyValInd P hnull hbool hint hstr hlist hdict kv.2)
termination_by v => sizeOf v

end Swarm

namespace Swarm

theorem char_ne_of_toNat {c : Char} {n : Nat} (hc : c.toNat ≠ n) (hd : (Char.ofNat n).toNat = n) :
    ¬c = Char.ofNat n := by
  intro h
  rw [h, hd] at hc
  exact hc rfl

theorem isWs_false_of_toNat {c : Char}
    (h : c.toNat ≠ 32 ∧ c.toNat ≠ 9 ∧ c.toNat ≠ 10 ∧ c.toNat ≠ 13) : isWs c = false := by
  simp only [isWs, Bool.or_eq_false_iff, decide_eq_false_iff_not, charEqIff]
  refine ⟨⟨⟨?_, ?_⟩, ?_⟩, ?_⟩ <;> simpa using by omega

theorem skipWs_cons_not_ws (c : Char) (l : List Char) (h : isWs c = false) :
    skipWs (c :: l) = c :: l := by
  simp [skipWs, List.dropWhile, h]

theorem skipWs_ws (l : List Char) : skipWs (' ' :: l) = skipWs l := by
  simp [skipWs, List.dropWhile, isWs]

theorem parseValue_succ_ws (f : Nat) (l : List Char) :
    parseValue (f + 1) (' ' :: l) = parseValue (f + 1) l := by
  rw [parseValue.eq_def, parseValue.eq_def]
  dsimp only
  rw [skipWs_ws]

/-- Heads of dumped values: never whitespace, never a list or object
terminator, never a separator, never a digit continuation problem. -/
theorem dumpVal_head (v : PyVal) :
    ∃ c tl, dumpVal v = c :: tl ∧ isWs c = false ∧ ¬c = ']' ∧ ¬c = '\x7d' := by
  cases v with
  | null =>
    refine ⟨'n', _, rfl, ?_, ?_, ?_⟩ <;> decide
  | bool b =>
    cases b with
    | true => refine ⟨'t', _, rfl, ?_, ?_, ?_⟩ <;> decide
    | false => refine ⟨'f', _, rfl, ?_, ?_, ?_⟩ <;> decide
  | int i =>
    by_cases h : i < 0
    · refine ⟨'-', natChars i.natAbs, ?_, by decide, by decide, by decide⟩
      rw [dumpVal, intChars, if_pos h]
    · obtain ⟨c, tl, he, hc1, hc2, _, _⟩ := natChars_shape i.toNat
      refine ⟨c, tl, ?_, ?_, ?_, ?_⟩
      · rw [dumpVal, intChars, if_neg h, he]
      · exact isWs_false_of_toNat (by omega)
      · rw [charEqIff]
        simp only [show (']' : Char).toNat = 93 from rfl]
        omega
      · rw [charEqIff]
        simp only [show ('\x7d' : Char).toNat = 125 from rfl]
        omega
  | str s =>
    refine ⟨'"', _, rfl, ?_, ?_, ?_⟩ <;> decide
  | list l =>
    cases l with
    | nil => refine ⟨'[', _, rfl, ?_, ?_, ?_⟩ <;> decide
    | cons v vs => refine ⟨'[', _, rfl, ?_, ?_, ?_⟩ <;> decide
  | dict l =>
    cases l with
    | nil => refine ⟨'\x7b', _, rfl, ?_, ?_, ?_⟩ <;> decide
    | cons kv kvs =>
      cases kv
      refine ⟨'\x7b', _, rfl, ?_, ?_, ?_⟩ <;> decide

theorem numDelimB_more_items (vs : List PyVal) (rest : List Char) :
    numDelimB (dumpMoreItems vs ++ ']' :: rest) = true := by
  cases vs with
  | nil => rfl
  | cons v vs => rfl

theorem numDelimB_more_entries (kvs : List (String × PyVal)) (rest : List Char) :
    numDelimB (dumpMoreEntries kvs ++ '\x7d' :: rest) = true := by
  cases kvs with
  | nil => rfl
  | cons kv kvs => cases kv; rfl

theorem escapeChar_len (c : Char) : 1 ≤ (escapeChar c).length := by
  unfold escapeChar
  split_ifs <;> simp [hex4]

theorem escChars_len (cs : List Char) : cs.length ≤ (escChars cs).length := by
  induction cs with
  | nil => simp [escChars]
  | cons c cs ih =>
    rw [escChars, List.length_append, List.length_cons]
    have := escapeChar_len c
    omega

end Swarm

namespace Swarm

/-- The decoder inverts the encoder on one value, for any fuel at least the
value's size and any following input that cannot extend a number. -/
def ParseOk (v : PyVal) : Prop :=
  ∀ fuel rest, pySize v ≤ fuel → numDelimB rest = true →
    parseValue fuel (dumpVal v ++ rest) = some (v, rest)

theorem parseItemsRest_dump (vs : List PyVal) :
    (∀ w ∈ vs, ParseOk w) →
    ∀ fuel rest, pySizeItems vs ≤ fuel →
      parseItemsRest fuel (dumpMoreItems vs ++ ']' :: rest) = some (vs, rest) := by
  induction vs with
  | nil =>
    intro _ fuel rest hf
    obtain ⟨f, rfl⟩ : ∃ f, fuel = f + 1 := ⟨fuel - 1, by simp [pySizeItems] at hf; omega⟩
    rw [dumpMoreItems, List.nil_append, parseItemsRest.eq_def]
    dsimp only
    rw [skipWs_cons_not_ws _ _ (by decide)]
    simp only [reduceIte]
  | cons w ws ih =>
    intro hok fuel rest hf
    have hw : 1 ≤ pySize w := pySize_pos w
    have hws : 1 ≤ pySizeItems ws := pySizeItems_pos ws
    rw [pySizeItems] at hf
    obtain ⟨f, rfl⟩ : ∃ f, fuel = f + 1 := ⟨fuel - 1, by omega⟩
    obtain ⟨g, rfl⟩ : ∃ g, f = g + 1 := ⟨f - 1, by omega⟩
    rw [dumpMoreItems, parseItemsRest.eq_def]
    dsimp only
    simp only [List.cons_append, List.append_assoc]
    rw [skipWs_cons_not_ws ',' _ (by decide)]
    simp only [reduceIte]
    rw [parseValue_succ_ws]
    rw [hok w (List.mem_cons_self w ws) (g + 1) (dumpMoreItems ws ++ ']' :: rest)
      (by omega) (numDelimB_more_items ws rest)]
    rw [Option.some_bind]
    rw [ih (fun x hx => hok x (List.mem_cons_of_mem w hx)) (g + 1) rest (by omega)]
    rfl

theorem parseMembersRest_dump (kvs : List (String × PyVal)) :
    (∀ kv ∈ kvs, ParseOk kv.2) →
    ∀ fuel rest, pySizeEntries kvs ≤ fuel →
      parseMembersRest fuel (dumpMoreEntries kvs ++ '\x7d' :: rest) = some (kvs, rest) := by
  induction kvs with
  | nil =>
    intro _ fuel rest hf
    obtain ⟨f, rfl⟩ : ∃ f, fuel = f + 1 := ⟨fuel - 1, by simp [pySizeEntries] at hf; omega⟩
    rw [dumpMoreEntries, List.nil_append, parseMembersRest.eq_def]
    dsimp only
    rw [skipWs_cons_not_ws _ _ (by decide)]
    simp only [reduceIte]
  | cons kv kvs ih =>
    obtain ⟨k, v⟩ := kv
    intro hok fuel rest hf
    have hv : 1 ≤ pySize v := pySize_pos v
    have hkvs : 1 ≤ pySizeEntries kvs := pySizeEntries_pos kvs
    rw [pySizeEntries] at hf
    obtain ⟨f, rfl⟩ : ∃ f, fuel = f + 1 := ⟨fuel - 1, by omega⟩
    obtain ⟨g, rfl⟩ : ∃ g, f = g + 1 := ⟨f - 1, by omega⟩
    rw [dumpMoreEntries, parseMembersRest.eq_def]
    dsimp only
    simp only [List.cons_append, List.append_assoc, List.nil_append]
    rw [skipWs_cons_not_ws ',' _ (by decide)]
    simp only [reduceIte]
    rw [skipWs_ws, skipWs_cons_not_ws '"' _ (by decide)]
    simp only [reduceIte]
    rw [parseStringBody_escChars k.data _ _
      (by have := escChars_len k.data; simp only [List.length_append, List.length_cons]; omega)]
    rw [Option.some_bind]
    rw [skipWs_cons_not_ws ':' _ (by decide)]
    simp only [reduceIte]
    rw [parseValue_succ_ws]
    rw [hok (k, v) (List.mem_cons_self _ _) (g + 1)
      (dumpMoreEntries kvs ++ '\x7d' :: rest) (by show pySize v ≤ g + 1; omega)
      (numDelimB_more_entries kvs rest)]
    rw [Option.some_bind]
    rw [ih (fun x hx => hok x (List.mem_cons_of_mem _ hx)) (g + 1) rest (by omega)]
    show some ((String.mk k.data, v) :: kvs, rest) = some ((k, v) :: kvs, rest)
    rw [show String.mk k.data = k from rfl]

end Swarm

namespace Swarm

theorem parseOk_null : ParseOk PyVal.null := by
  intro fuel rest hf _
  obtain ⟨f, rfl⟩ : ∃ f, fuel = f + 1 := ⟨fuel - 1, by simp [pySize] at hf; omega⟩
  rfl

theorem parseOk_bool (b : Bool) : ParseOk (PyVal.bool b) := by
  intro fuel rest hf _
  obtain ⟨f, rfl⟩ : ∃ f, fuel = f + 1 := ⟨fuel - 1, by simp [pySize] at hf; omega⟩
  cases b <;> rfl

theorem parseOk_int (i : Int) : ParseOk (PyVal.int i) := by
  intro fuel rest hf hr
  obtain ⟨f, rfl⟩ : ∃ f, fuel = f + 1 := ⟨fuel - 1, by simp [pySize] at hf; omega⟩
  by_cases h : i < 0
  · rw [show dumpVal (PyVal.int i) = intChars i from rfl, intChars, if_pos h,
      List.cons_append, parseValue.eq_def]
    dsimp only
    rw [skipWs_cons_not_ws '-' _ (by decide)]
    simp only [reduceIte]
    rw [← List.cons_append, show '-' :: natChars i.natAbs = intChars i by
      rw [intChars, if_pos h]]
    exact parseNumber_intChars i rest hr
  · obtain ⟨c, tl, he, hc1, hc2, _, _⟩ := natChars_shape i.toNat
    have hb : ¬c = '\x7b' := by rw [charEqIff]; simp only [show ('\x7b' : Char).toNat = 123 from rfl]; omega
    have hk : ¬c = '[' := by rw [charEqIff]; simp only [show ('[' : Char).toNat = 91 from rfl]; omega
    have hq : ¬c = '"' := by rw [charEqIff]; simp only [show ('"' : Char).toNat = 34 from rfl]; omega
    have hn : ¬c = 'n' := by rw [charEqIff]; simp only [show ('n' : Char).toNat = 110 from rfl]; omega
    have ht : ¬c = 't' := by rw [charEqIff]; simp only [show ('t' : Char).toNat = 116 from rfl]; omega
    have hfc : ¬c = 'f' := by rw [charEqIff]; simp only [show ('f' : Char).toNat = 102 from rfl]; omega
    rw [show dumpVal (PyVal.int i) = intChars i from rfl, intChars, if_neg h, he,
      List.cons_append, parseValue.eq_def]
    dsimp only
    rw [skipWs_cons_not_ws c _ (isWs_false_of_toNat (by omega))]
    dsimp only
    rw [if_neg hb, if_neg hk, if_neg hq, if_neg hn, if_neg ht, if_neg hfc]
    rw [← List.cons_append, ← he, show natChars i.toNat = intChars i by
      rw [intChars, if_neg h]]
    exact parseNumber_intChars i rest hr

theorem parseOk_str (s : String) : ParseOk (PyVal.str s) := by
  intro fuel rest hf _
  obtain ⟨f, rfl⟩ : ∃ f, fuel = f + 1 := ⟨fuel - 1, by simp [pySize] at hf; omega⟩
  rw [show dumpVal (PyVal.str s) = ('"' :: escChars s.data) ++ ['"'] from rfl]
  simp only [List.cons_append, List.append_assoc, List.nil_append]
  rw [parseValue.eq_def]
  dsimp only
  rw [skipWs_cons_not_ws '"' _ (by decide)]
  simp only [reduceIte]
  rw [parseStringBody_escChars s.data _ _
    (by have := escChars_len s.data; simp only [List.length_append, List.length_cons]; omega)]
  rw [Option.map_some']
  rfl

theorem parseOk_list_nil : ParseOk (PyVal.list []) := by
  intro fuel rest hf _
  have h2 : 2 ≤ fuel := by simpa [pySize, pySizeItems] using hf
  obtain ⟨f, rfl⟩ : ∃ f, fuel = f + 1 := ⟨fuel - 1, by omega⟩
  obtain ⟨g, rfl⟩ : ∃ g, f = g + 1 := ⟨f - 1, by omega⟩
  rw [show dumpVal (PyVal.list []) = ['[', ']'] from rfl]
  simp only [List.cons_append, List.nil_append]
  rw [parseValue.eq_def]
  dsimp only
  rw [skipWs_cons_not_ws '[' _ (by decide)]
  simp only [reduceIte]
  rw [parseItems.eq_def]
  dsimp only
  rw [skipWs_cons_not_ws ']' _ (by decide)]
  rfl

theorem parseOk_list_cons (v : PyVal) (vs : List PyVal)
    (hall : ∀ w ∈ v :: vs, ParseOk w) : ParseOk (PyVal.list (v :: vs)) := by
  intro fuel rest hf hr
  have hv := pySize_pos v
  have hvs := pySizeItems_pos vs
  rw [show pySize (PyVal.list (v :: vs)) = 1 + (1 + pySize v + pySizeItems vs) from rfl] at hf
  obtain ⟨f, rfl⟩ : ∃ f, fuel = f + 1 := ⟨fuel - 1, by omega⟩
  obtain ⟨g, rfl⟩ : ∃ g, f = g + 1 := ⟨f - 1, by omega⟩
  rw [show dumpVal (PyVal.list (v :: vs)) =
    ('[' :: dumpVal v) ++ dumpMoreItems vs ++ [']'] from rfl]
  simp only [List.cons_append, List.append_assoc, List.nil_append]
  rw [parseValue.eq_def]
  dsimp only
  rw [skipWs_cons_not_ws '[' _ (by decide)]
  simp only [reduceIte]
  rw [parseItems.eq_def]
  dsimp only
  obtain ⟨c, tl, he, hws, hne1, _⟩ := dumpVal_head v
  rw [he]
  simp only [List.cons_append]
  rw [skipWs_cons_not_ws c _ hws]
  dsimp only
  rw [if_neg hne1]
  rw [← List.cons_append, ← he]
  rw [hall v (List.mem_cons_self v vs) g (dumpMoreItems vs ++ ']' :: rest)
    (by omega) (numDelimB_more_items vs rest)]
  rw [Option.some_bind]
  rw [parseItemsRest_dump vs (fun x hx => hall x (List.mem_cons_of_mem v hx))
    g rest (by omega)]
  rfl

theorem parseOk_dict_nil : ParseOk (PyVal.dict []) := by
  intro fuel rest hf _
  have h2 : 2 ≤ fuel := by simpa [pySize, pySizeEntries] using hf
  obtain ⟨f, rfl⟩ : ∃ f, fuel = f + 1 := ⟨fuel - 1, by omega⟩
  obtain ⟨g, rfl⟩ : ∃ g, f = g + 1 := ⟨f - 1, by omega⟩
  rw [show dumpVal (PyVal.dict []) = ['\x7b', '\x7d'] from rfl]
  simp only [List.cons_append, List.nil_append]
  rw [parseValue.eq_def]
  dsimp only
  rw [skipWs_cons_not_ws '\x7b' _ (by decide)]
  simp only [reduceIte]
  rw [parseMembers.eq_def]
  dsimp only
  rw [skipWs_cons_not_ws '\x7d' _ (by decide)]
  rfl

theorem parseOk_dict_cons (k : String) (v : PyVal) (kvs : List (String × PyVal))
    (hall : ∀ kv ∈ (k, v) :: kvs, ParseOk kv.2) : ParseOk (PyVal.dict ((k, v) :: kvs)) := by
  intro fuel rest hf hr
  have hv := pySize_pos v
  have hkvs := pySizeEntries_pos kvs
  rw [show pySize (PyVal.dict ((k, v) :: kvs)) =
    1 + (1 + pySize v + pySizeEntries kvs) from rfl] at hf
  obtain ⟨f, rfl⟩ : ∃ f, fuel = f + 1 := ⟨fuel - 1, by omega⟩
  obtain ⟨g, rfl⟩ : ∃ g, f = g + 1 := ⟨f - 1, by omega⟩
  obtain ⟨u, rfl⟩ : ∃ u, g = u + 1 := ⟨g - 1, by omega⟩
  rw [show dumpVal (PyVal.dict ((k, v) :: kvs)) =
    ('\x7b' :: '"' :: escChars k.data) ++ ['"'] ++ (':' :: ' ' :: dumpVal v) ++
      dumpMoreEntries kvs ++ ['\x7d'] from rfl]
  simp only [List.cons_append, List.append_assoc, List.nil_append]
  rw [parseValue.eq_def]
  dsimp only
  rw [skipWs_cons_not_ws '\x7b' _ (by decide)]
  simp only [reduceIte]
  rw [parseMembers.eq_def]
  dsimp only
  rw [skipWs_cons_not_ws '"' _ (by decide)]
  simp only [reduceIte]
  rw [parseStringBody_escChars k.data _ _
    (by have := escChars_len k.data; simp only [List.length_append, List.length_cons]; omega)]
  rw [Option.some_bind]
  rw [skipWs_cons_not_ws ':' _ (by decide)]
  simp only [reduceIte]
  rw [parseValue_succ_ws]
  rw [hall (k, v) (List.mem_cons_self _ _) (u + 1)
    (dumpMoreEntries kvs ++ '\x7d' :: rest) (by show pySize v ≤ u + 1; omega)
    (numDelimB_more_entries kvs rest)]
  rw [Option.some_bind]
  rw [parseMembersRest_dump kvs (fun x hx => hall x (List.mem_cons_of_mem _ hx))
    (u + 1) rest (by omega)]
  rfl

/-- The decoder inverts the encoder on every value. -/
theorem parseOk_all : ∀ v, ParseOk v := by
  refine pyValInd ParseOk parseOk_null parseOk_bool parseOk_int parseOk_str ?_ ?_
  · intro l h
    cases l with
    | nil => exact parseOk_list_nil
    | cons v vs => exact parseOk_list_cons v vs h
  · intro l h
    cases l with
    | nil => exact parseOk_dict_nil
    | cons kv kvs =>
      obtain ⟨k, v⟩ := kv
      exact parseOk_dict_cons k v kvs h

end Swarm

namespace Swarm

theorem pySizeItems_le (vs : List PyVal)
    (h : ∀ w ∈ vs, pySize w ≤ 2 * (dumpVal w).length + 2) :
    pySizeItems vs ≤ 2 * (dumpMoreItems vs).length + 2 := by
  induction vs with
  | nil => simp [pySizeItems, dumpMoreItems]
  | cons w ws ih =>
    have h1 := h w (List.mem_cons_self w ws)
    have h2 := ih (fun x hx => h x (List.mem_cons_of_mem w hx))
    rw [pySizeItems, dumpMoreItems]
    simp only [List.length_cons, List.length_append]
    omega

theorem pySizeEntries_le (kvs : List (String × PyVal))
    (h : ∀ kv ∈ kvs, pySize kv.2 ≤ 2 * (dumpVal kv.2).length + 2) :
    pySizeEntries kvs ≤ 2 * (dumpMoreEntries kvs).length + 2 := by
  induction kvs with
  | nil => simp [pySizeEntries, dumpMoreEntries]
  | cons kv kvs ih =>
    obtain ⟨k, v⟩ := kv
    have h1 : pySize v ≤ 2 * (dumpVal v).length + 2 := h (k, v) (List.mem_cons_self _ _)
    have h2 := ih (fun x hx => h x (List.mem_cons_of_mem _ hx))
    rw [pySizeEntries, dumpMoreEntries]
    simp only [List.length_cons, List.length_append]
    omega

/-- The fuel `json_loads` allots always covers the size of the value that
`json_dumps` wrote. -/
theorem pySize_le_dump (v : PyVal) : pySize v ≤ 2 * (dumpVal v).length + 2 := by
  refine pyValInd (fun v => pySize v ≤ 2 * (dumpVal v).length + 2) ?_ ?_ ?_ ?_ ?_ ?_ v
  · simp [pySize]
  · intro b; simp [pySize]
  · intro i; simp [pySize]
  · intro s; simp [pySize]
  · intro l h
    cases l with
    | nil => simp [pySize, pySizeItems, dumpVal]
    | cons w ws =>
      have h1 := h w (List.mem_cons_self w ws)
      have h2 := pySizeItems_le ws (fun x hx => h x (List.mem_cons_of_mem w hx))
      rw [show pySize (PyVal.list (w :: ws)) = 1 + (1 + pySize w + pySizeItems ws) from rfl,
        show dumpVal (PyVal.list (w :: ws)) =
          ('[' :: dumpVal w) ++ dumpMoreItems ws ++ [']'] from rfl]
      simp only [List.length_append, List.length_cons, List.length_singleton]
      omega
  · intro l h
    cases l with
    | nil => simp [pySize, pySizeEntries, dumpVal]
    | cons kv kvs =>
      obtain ⟨k, v⟩ := kv
      have h1 : pySize v ≤ 2 * (dumpVal v).length + 2 := h (k, v) (List.mem_cons_self _ _)
      have h2 := pySizeEntries_le kvs (fun x hx => h x (List.mem_cons_of_mem _ hx))
      rw [show pySize (PyVal.dict ((k, v) :: kvs)) =
          1 + (1 + pySize v + pySizeEntries kvs) from rfl,
        show dumpVal (PyVal.dict ((k, v) :: kvs)) =
          ('\x7b' :: '"' :: escChars k.data) ++ ['"'] ++ (':' :: ' ' :: dumpVal v) ++
            dumpMoreEntries kvs ++ ['\x7d'] from rfl]
      simp only [List.length_append, List.length_cons, List.length_singleton]
      omega

/-- Decoding inverts encoding: `json.loads(json.dumps(v))` gives back `v`. -/
theorem json_roundtrip (v : PyVal) : json_loads (json_dumps v) = some v := by
  have h1 := parseOk_all v (2 * (dumpVal v).length + 2) []
    (by have := pySize_le_dump v; omega) rfl
  rw [List.append_nil] at h1
  rw [json_loads]
  rw [show (json_dumps v).data = dumpVal v from rfl]
  rw [h1]
  rfl

theorem isValidJson_dumps (v : PyVal) : isValidJson (json_dumps v) = true := by
  rw [isValidJson, json_roundtrip]
  rfl

end Swarm

namespace Swarm

/-! ## Claims -/

/-- C10: for every raw runtime response dict (including an empty dict or
one with missing fields), the constructed WrappedResponse contains exactly
one Choice, and a missing `message`, `content` or `role` field defaults the
message's content and role to the empty string rather than failing. -/
theorem claim_C10 (r : RawResponse) :
    (WrappedResponse.ofRaw r).choices.length = 1 ∧
    ∃ msg, (WrappedResponse.ofRaw r).choices = [{ message := msg }] ∧
      msg.content = ((r.message.getD {}).content).getD ("") ∧
      msg.role = ((r.message.getD {}).role).getD ("") := by
  obtain ⟨message⟩ := r
  cases message with
  | none => exact ⟨rfl, _, rfl, rfl, rfl⟩
  | some md =>
    obtain ⟨c, role, tc⟩ := md
    cases tc with
    | none => exact ⟨rfl, _, rfl, rfl, rfl⟩
    | some tcs => exact ⟨rfl, _, rfl, rfl, rfl⟩

/-- C8: every error raised while establishing the connection during factory
construction makes `GetClientOllama` raise a ConnectionFailure-kind error
that wraps the original error as its cause (`raise ... from e`) and embeds
a human-readable hint; the raw underlying exception never escapes. -/
theorem claim_C8 (mkClient : String → Except String OllamaClient) (url e : String)
    (h : mkClient url = Except.error e) :
    GetClientOllama mkClient url =
      Except.error
        { kind := ExcKind.connectionFailure,
          msg := "Failed to connect to Ollama at " ++ url ++
            ". Make sure Ollama is running and the URL is correct. Error: " ++ e,
          cause := Option.some e, context := Option.some e } := by
  rw [GetClientOllama, h]

theorem claim_C8_witness :
    ((fun _ : String => (Except.error ("connection refused") : Except String OllamaClient))
        ("http://localhost:11434") =
      Except.error ("connection refused")) ∧
    GetClientOllama
        (fun _ => Except.error ("connection refused")) ("http://localhost:11434") =
      Except.error
        { kind := ExcKind.connectionFailure,
          msg := "Failed to connect to Ollama at http://localhost:11434" ++
            ". Make sure Ollama is running and the URL is correct. Error: connection refused",
          cause := Option.some ("connection refused"),
          context := Option.some ("connection refused") } :=
  ⟨rfl, by
    have h := claim_C8 (fun _ => Except.error ("connection refused"))
      ("http://localhost:11434") ("connection refused") rfl
    rw [h]
    rfl⟩

/-- C5: every dict passed as a structured object into Function construction
(`Function.from_ollama`, the spec's `from_native`) is serialized to a
JSON-formatted string, and decoding that string as JSON reproduces the
original dict. -/
theorem claim_C5 (nm : Option String) (d : List (String × PyVal)) :
    (Function.from_ollama { name := nm, arguments := Option.some (PyVal.dict d) }).arguments =
      PyVal.str (json_dumps (PyVal.dict d)) ∧
    json_loads (json_dumps (PyVal.dict d)) = some (PyVal.dict d) :=
  ⟨rfl, json_roundtrip (PyVal.dict d)⟩

end Swarm

namespace Swarm

/-- C1: for every runtime response whose message content is exactly
`"Before [foo(bar=1)] After"`, `create` returns a WrappedResponse whose
single message has content `"Before  After"` and exactly one synthesized
tool call with id `call_1`, function name `foo` and arguments `bar=1`. -/
theorem claim_C1 (role : Option String) (tc0 : Option (List RawToolCallData))
    (msgs : List (List (String × String))) (cm : List CleanMsg)
    (hmsgs : cleanMessages msgs = Except.ok cm) (model : String) (stream : Bool) :
    ChatCompletions.create
      (fun _ => ChatOutcome.success
        { message := Option.some
            { content := Option.some ("Before [foo(bar=1)] After"), role := role,
              tool_calls := tc0 } })
      msgs model stream Option.none =
      Except.ok
        { choices := [{ message :=
            { content := "Before  After", role := role.getD (""),
              tool_calls := Option.some [
                { id := "call_1", type := "function",
                  function := { name := "foo", arguments := PyVal.str ("bar=1") } }] } }] } := by
  rw [ChatCompletions.create, hmsgs]
  rfl

theorem claim_C1_witness :
    cleanMessages [[("role", "user"), ("content", "hi")]] =
      Except.ok [{ role := "user", content := "hi" }] ∧
    ChatCompletions.create
      (fun _ => ChatOutcome.success
        { message := Option.some
            { content := Option.some ("Before [foo(bar=1)] After"),
              role := Option.some ("assistant"), tool_calls := Option.none } })
      [[("role", "user"), ("content", "hi")]] ("llama3.2:3b") false Option.none =
      Except.ok
        { choices := [{ message :=
            { content := "Before  After", role := "assistant",
              tool_calls := Option.some [
                { id := "call_1", type := "function",
                  function := { name := "foo", arguments := PyVal.str ("bar=1") } }] } }] } :=
  ⟨rfl, claim_C1 (Option.some ("assistant")) Option.none
    [[("role", "user"), ("content", "hi")]] [{ role := "user", content := "hi" }]
    rfl ("llama3.2:3b") false⟩

/-- C7: for every raw runtime response whose message has no `tool_calls`
field and whose content contains no `[` character, the WrappedResponse
returned by `create` has `tool_calls` absent on its message and the message
content equal to the raw response content. -/
theorem claim_C7 (c : String) (role : Option String)
    (msgs : List (List (String × String))) (cm : List CleanMsg)
    (hmsgs : cleanMessages msgs = Except.ok cm) (model : String) (stream : Bool)
    (hno : containsCh '[' c.data = false) :
    ChatCompletions.create
      (fun _ => ChatOutcome.success
        { message := Option.some
            { content := Option.some c, role := role, tool_calls := Option.none } })
      msgs model stream Option.none =
      Except.ok
        { choices := [{ message :=
            { content := c, role := role.getD (""), tool_calls := Option.none } }] } := by
  rw [ChatCompletions.create, hmsgs]
  dsimp only [dispatch]
  rw [heuristicStep]
  dsimp only
  have hcond : ¬(containsCh '[' c.data = true ∧ containsCh ']' c.data = true) := by
    rw [hno]
    simp
  rw [if_neg hcond]
  rfl

theorem claim_C7_witness :
    cleanMessages [[("role", "user"), ("content", "hi")]] =
      Except.ok [{ role := "user", content := "hi" }] ∧
    containsCh '[' (String.toList ("plain text")) = false ∧
    ChatCompletions.create
      (fun _ => ChatOutcome.success
        { message := Option.some
            { content := Option.some ("plain text"), role := Option.some ("assistant"),
              tool_calls := Option.none } })
      [[("role", "user"), ("content", "hi")]] ("llama3.2:3b") false Option.none =
      Except.ok
        { choices := [{ message :=
            { content := "plain text", role := "assistant",
              tool_calls := Option.none } }] } :=
  ⟨rfl, rfl, claim_C7 ("plain text") (Option.some ("assistant"))
    [[("role", "user"), ("content", "hi")]] [{ role := "user", content := "hi" }]
    rfl ("llama3.2:3b") false rfl⟩

end Swarm

namespace Swarm

/-- C2 counterexample: the shim's heuristic synthesis produces a Function
whose arguments text `bar=1` is not valid JSON, so not every Function value
produced by the adapter has valid-JSON arguments. -/
theorem claim_C2_counterexample :
    (ChatCompletions.create
      (fun _ => ChatOutcome.success
        { message := Option.some
            { content := Option.some ("Before [foo(bar=1)] After"),
              role := Option.some ("assistant"), tool_calls := Option.none } })
      [] ("llama3.2:3b") false Option.none =
      Except.ok
        { choices := [{ message :=
            { content := "Before  After", role := "assistant",
              tool_calls := Option.some [
                { id := "call_1", type := "function",
                  function := { name := "foo", arguments := PyVal.str ("bar=1") } }] } }] }) ∧
    isValidJson ("bar=1") = false :=
  ⟨rfl, rfl⟩

/-- C2 amended: a Function whose source arguments are a structured dict is
serialized to valid JSON text; arguments that arrive as a raw string (from
the runtime or from the heuristic synthesis) are passed through verbatim
and need not be valid JSON. -/
theorem claim_C2_amended (fd : RawFuncData) :
    (∀ d, fd.arguments = Option.some (PyVal.dict d) →
      (Function.from_ollama fd).arguments = PyVal.str (json_dumps (PyVal.dict d)) ∧
      isValidJson (json_dumps (PyVal.dict d)) = true) ∧
    (∀ s, fd.arguments = Option.some (PyVal.str s) →
      (Function.from_ollama fd).arguments = PyVal.str s) := by
  constructor
  · intro d hd
    refine ⟨?_, isValidJson_dumps (PyVal.dict d)⟩
    rw [Function.from_ollama, hd]
    rfl
  · intro s hs
    rw [Function.from_ollama, hs]
    rfl

theorem claim_C2_amended_witness :
    ((Function.from_ollama
        { name := Option.some ("foo"),
          arguments := Option.some (PyVal.dict [("bar", PyVal.int 1)]) }).arguments =
      PyVal.str (json_dumps (PyVal.dict [("bar", PyVal.int 1)])) ∧
    isValidJson (json_dumps (PyVal.dict [("bar", PyVal.int 1)])) = true) :=
  (claim_C2_amended
    { name := Option.some ("foo"),
      arguments := Option.some (PyVal.dict [("bar", PyVal.int 1)]) }).1
    [("bar", PyVal.int 1)] rfl

/-- C3 counterexample: the `except` clauses re-raise without `from e`, so
the remapped error's explicit cause is `none` rather than the original
error, contradicting "carries the original error as its cause". -/
theorem claim_C3_counterexample :
    (ChatCompletions.create (fun _ => ChatOutcome.responseError ("boom")) []
        ("llama3.2:3b") false Option.none =
      Except.error
        { kind := ExcKind.modelError, msg := "LLM model error: boom",
          cause := Option.none, context := Option.some ("boom") }) ∧
    ({ kind := ExcKind.modelError, msg := "LLM model error: boom",
        cause := Option.none, context := Option.some ("boom") } : Exc).cause ≠
      Option.some ("boom") :=
  ⟨rfl, by simp⟩

/-- C3 amended: a model-level runtime error is remapped to the ModelError
kind, a transport-level connection failure to the ConnectionFailure kind
and any other exception to the OperationFailure kind; each remapped error
embeds the original error's text in its message and records the original as
the implicit exception context, but does not set it as the explicit cause. -/
theorem claim_C3_amended (e : String) (msgs : List (List (String × String)))
    (cm : List CleanMsg) (hmsgs : cleanMessages msgs = Except.ok cm)
    (model : String) (stream : Bool) :
    (ChatCompletions.create (fun _ => ChatOutcome.responseError e) msgs model stream
        Option.none =
      Except.error
        { kind := ExcKind.modelError, msg := "LLM model error: " ++ e,
          cause := Option.none, context := Option.some e }) ∧
    (ChatCompletions.create (fun _ => ChatOutcome.connectError e) msgs model stream
        Option.none =
      Except.error
        { kind := ExcKind.connectionFailure,
          msg := "Connection error occurred.. Is the `ollama serve` running?: " ++ e,
          cause := Option.none, context := Option.some e }) ∧
    (ChatCompletions.create (fun _ => ChatOutcome.otherError e) msgs model stream
        Option.none =
      Except.error
        { kind := ExcKind.operationFailure, msg := "Failed to get chat response: " ++ e,
          cause := Option.none, context := Option.some e }) := by
  refine ⟨?_, ?_, ?_⟩ <;> (rw [ChatCompletions.create, hmsgs]; rfl)

theorem claim_C3_amended_witness :
    cleanMessages [[("role", "user"), ("content", "hi")]] =
      Except.ok [{ role := "user", content := "hi" }] ∧
    (ChatCompletions.create (fun _ => ChatOutcome.responseError ("oops"))
        [[("role", "user"), ("content", "hi")]] ("llama3.2:3b") false Option.none =
      Except.error
        { kind := ExcKind.modelError, msg := "LLM model error: " ++ "oops",
          cause := Option.none, context := Option.some ("oops") }) ∧
    (ChatCompletions.create (fun _ => ChatOutcome.connectError ("oops"))
        [[("role", "user"), ("content", "hi")]] ("llama3.2:3b") false Option.none =
      Except.error
        { kind := ExcKind.connectionFailure,
          msg := "Connection error occurred.. Is the `ollama serve` running?: " ++ "oops",
          cause := Option.none, context := Option.some ("oops") }) ∧
    (ChatCompletions.create (fun _ => ChatOutcome.otherError ("oops"))
        [[("role", "user"), ("content", "hi")]] ("llama3.2:3b") false Option.none =
      Except.error
        { kind := ExcKind.operationFailure,
          msg := "Failed to get chat response: " ++ "oops",
          cause := Option.none, context := Option.some ("oops") }) := by
  refine ⟨rfl, ?_⟩
  exact claim_C3_amended ("oops") [[("role", "user"), ("content", "hi")]]
    [{ role := "user", content := "hi" }] rfl ("llama3.2:3b") false

end Swarm

namespace Swarm

/-- C4 counterexample: for content `"x [f()] y [f()] z"` the shim removes
BOTH occurrences of `[f()]` (Python `str.replace` with no count), leaving
`"x  y  z"`, not `"x  y [f()] z"` as removal of only the first occurrence
would. -/
theorem claim_C4_counterexample :
    (ChatCompletions.create
      (fun _ => ChatOutcome.success
        { message := Option.some
            { content := Option.some ("x [f()] y [f()] z"),
              role := Option.some ("assistant"), tool_calls := Option.none } })
      [] ("llama3.2:3b") false Option.none =
      Except.ok
        { choices := [{ message :=
            { content := "x  y  z", role := "assistant",
              tool_calls := Option.some [
                { id := "call_1", type := "function",
                  function :=
                    { name := "f",
                      arguments := PyVal.str (String.mk ['\x7b', '\x7d']) } }] } }] }) ∧
    ("x  y  z" : String) ≠ "x  y [f()] z" :=
  ⟨rfl, by decide⟩

/-- C4 amended: when the heuristic parser finds a bracketed function-call
form, the shim removes every left-to-right non-overlapping occurrence of
that bracketed substring from the message content (Python `str.replace`
replaces all occurrences) and then strips leading and trailing whitespace;
later identical occurrences are removed too, not left in place. -/
theorem claim_C4_amended (content : String) (role : Option String)
    (tc0 : Option (List RawToolCallData))
    (msgs : List (List (String × String))) (cm : List CleanMsg)
    (hmsgs : cleanMessages msgs = Except.ok cm) (model : String) (stream : Bool)
    (h1 : containsCh '[' content.data = true) (h2 : containsCh ']' content.data = true)
    (h3 : containsCh '(' (bracketSlice content.data) = true)
    (h4 : containsCh ')' (bracketSlice content.data) = true) :
    ∃ tcs, ChatCompletions.create
      (fun _ => ChatOutcome.success
        { message := Option.some
            { content := Option.some content, role := role, tool_calls := tc0 } })
      msgs model stream Option.none =
      Except.ok
        { choices := [{ message :=
            { content := String.mk (pyStrip (replaceAll
                ('[' :: bracketSlice content.data ++ [']']) content.data)),
              role := role.getD (""), tool_calls := Option.some tcs } }] } := by
  refine ⟨[{ id := "call_1", type := "function",
             function :=
               { name := String.mk (heurFuncName (bracketSlice content.data)),
                 arguments := PyVal.str (if heurFuncArgs (bracketSlice content.data) = []
                   then String.mk ['\x7b', '\x7d']
                   else String.mk (heurFuncArgs (bracketSlice content.data))) } }], ?_⟩
  rw [ChatCompletions.create, hmsgs]
  dsimp only [dispatch]
  rw [heuristicStep]
  dsimp only
  rw [if_pos ⟨h1, h2⟩, if_pos ⟨h3, h4⟩]
  rw [WrappedResponse.ofRaw]
  dsimp only [Option.getD]
  rw [buildToolCalls.eq_def]
  dsimp only
  rw [buildToolCalls.eq_def, Function.from_ollama]
  rfl

theorem claim_C4_amended_witness :
    cleanMessages [[("role", "user"), ("content", "hi")]] =
      Except.ok [{ role := "user", content := "hi" }] ∧
    containsCh '[' (String.toList ("a(b) [p(q)r] [p(q)r] end")) = true ∧
    containsCh ']' (String.toList ("a(b) [p(q)r] [p(q)r] end")) = true ∧
    containsCh '(' (bracketSlice (String.toList ("a(b) [p(q)r] [p(q)r] end"))) = true ∧
    containsCh ')' (bracketSlice (String.toList ("a(b) [p(q)r] [p(q)r] end"))) = true ∧
    ∃ tcs, ChatCompletions.create
      (fun _ => ChatOutcome.success
        { message := Option.some
            { content := Option.some ("a(b) [p(q)r] [p(q)r] end"),
              role := Option.some ("assistant"), tool_calls := Option.none } })
      [[("role", "user"), ("content", "hi")]] ("llama3.2:3b") false Option.none =
      Except.ok
        { choices := [{ message :=
            { content := String.mk (pyStrip (replaceAll
                ('[' :: bracketSlice (String.toList ("a(b) [p(q)r] [p(q)r] end")) ++ [']'])
                (String.toList ("a(b) [p(q)r] [p(q)r] end")))),
              role := "assistant", tool_calls := Option.some tcs } }] } :=
  ⟨rfl, rfl, rfl, rfl, rfl,
    claim_C4_amended ("a(b) [p(q)r] [p(q)r] end") (Option.some ("assistant")) Option.none
      [[("role", "user"), ("content", "hi")]] [{ role := "user", content := "hi" }]
      rfl ("llama3.2:3b") false rfl rfl rfl rfl⟩

end Swarm

namespace Swarm

theorem cleanMessages_eq_map (msgs : List (List (String × String)))
    (h : ∀ m ∈ msgs, (dictGet m ("role")).isSome ∧ (dictGet m ("content")).isSome) :
    cleanMessages msgs = Except.ok (msgs.map (fun m =>
      { role := (dictGet m ("role")).getD (""),
        content := (dictGet m ("content")).getD ("") })) := by
  induction msgs with
  | nil => rfl
  | cons m ms ih =>
    obtain ⟨hr, hc⟩ := h m (List.mem_cons_self m ms)
    obtain ⟨r, hr⟩ := Option.isSome_iff_exists.mp hr
    obtain ⟨c, hc⟩ := Option.isSome_iff_exists.mp hc
    rw [cleanMessages, hr, hc, ih (fun x hx => h x (List.mem_cons_of_mem m hx))]
    rw [List.map_cons, hr, hc]
    rfl

/-- C6: for every message list where each message has role and content plus
arbitrary extra fields, `create` forwards to the runtime's chat operation
exactly the pairs `{role, content}` for each message, in the same order,
with all extra fields dropped: the dispatched request's messages are the
per-message projections to role and content. -/
theorem claim_C6 (chat : ChatRequest → ChatOutcome)
    (msgs : List (List (String × String))) (model : String) (stream : Bool)
    (h : ∀ m ∈ msgs, (dictGet m ("role")).isSome ∧ (dictGet m ("content")).isSome) :
    ChatCompletions.create chat msgs model stream Option.none =
      dispatch chat
        { model := model,
          messages := msgs.map (fun m =>
            { role := (dictGet m ("role")).getD (""),
              content := (dictGet m ("content")).getD ("") }),
          stream := stream, tools := Option.none } := by
  rw [ChatCompletions.create, cleanMessages_eq_map msgs h]

theorem claim_C6_witness :
    (∀ m ∈ [[("role", "user"), ("content", "hi"), ("extra", "dropped")]],
      (dictGet m ("role")).isSome ∧ (dictGet m ("content")).isSome) ∧
    ChatCompletions.create (fun _ => ChatOutcome.success {})
        [[("role", "user"), ("content", "hi"), ("extra", "dropped")]]
        ("llama3.2:3b") false Option.none =
      dispatch (fun _ => ChatOutcome.success {})
        { model := "llama3.2:3b",
          messages := [[("role", "user"), ("content", "hi"), ("extra", "dropped")]].map
            (fun m => { role := (dictGet m ("role")).getD (""),
                        content := (dictGet m ("content")).getD ("") }),
          stream := false, tools := Option.none } :=
  ⟨by decide, claim_C6 (fun _ => ChatOutcome.success {})
    [[("role", "user"), ("content", "hi"), ("extra", "dropped")]]
    ("llama3.2:3b") false (by decide)⟩

end Swarm

namespace Swarm

/-- A bad message (missing role or content) makes the cleaning loop raise a
raw KeyError-shaped error. -/
theorem cleanMessages_err (msgs : List (List (String × String)))
    (h : ∃ m ∈ msgs, dictGet m ("role") = Option.none ∨ dictGet m ("content") = Option.none) :
    ∃ k, cleanMessages msgs = Except.error (keyErr k) := by
  induction msgs with
  | nil =>
    obtain ⟨m, hm, _⟩ := h
    exact absurd hm (List.not_mem_nil m)
  | cons m ms ih =>
    cases hr : dictGet m ("role") with
    | none => exact ⟨"role", by rw [cleanMessages, hr]⟩
    | some r =>
      cases hc : dictGet m ("content") with
      | none => exact ⟨"content", by rw [cleanMessages, hr, hc]⟩
      | some c =>
        obtain ⟨x, hx, hcase⟩ := h
        rcases List.mem_cons.mp hx with rfl | hx2
        · rcases hcase with hbad | hbad
          · rw [hr] at hbad
            cases hbad
          · rw [hc] at hbad
            cases hbad
        · obtain ⟨k, hk⟩ := ih ⟨x, hx2, hcase⟩
          refine ⟨k, ?_⟩
          rw [cleanMessages, hr, hc, hk]
          rfl

theorem cleanMessages_shape (msgs : List (List (String × String))) :
    (∃ cm, cleanMessages msgs = Except.ok cm) ∨
    (∃ k, cleanMessages msgs = Except.error (keyErr k)) := by
  induction msgs with
  | nil => exact Or.inl ⟨[], rfl⟩
  | cons m ms ih =>
    cases hr : dictGet m ("role") with
    | none => exact Or.inr ⟨"role", by rw [cleanMessages, hr]⟩
    | some r =>
      cases hc : dictGet m ("content") with
      | none => exact Or.inr ⟨"content", by rw [cleanMessages, hr, hc]⟩
      | some c =>
        rcases ih with ⟨cm, hcm⟩ | ⟨k, hk⟩
        · exact Or.inl ⟨_, by rw [cleanMessages, hr, hc, hcm]; rfl⟩
        · exact Or.inr ⟨k, by rw [cleanMessages, hr, hc, hk]; rfl⟩

/-- A tool descriptor lacking one of the raw-indexed keys makes the
formatting loop raise a raw KeyError-shaped error. -/
theorem formatTool_err (t : RawTool)
    (h : t.function = Option.none ∨
      ∃ f, t.function = Option.some f ∧
        (f.parameters = Option.none ∨
          ∃ p, f.parameters = Option.some p ∧ p.properties = Option.none)) :
    ∃ k, formatTool t = Except.error (keyErr k) := by
  rcases h with h | ⟨f, hf, hrest⟩
  · exact ⟨"function", by rw [formatTool, h]⟩
  · cases hn : f.name with
    | none => exact ⟨"name", by rw [formatTool, hf]; dsimp only; rw [hn]⟩
    | some nm =>
      rcases hrest with hp | ⟨p, hp, hprops⟩
      · exact ⟨"parameters", by rw [formatTool, hf]; dsimp only; rw [hn]; dsimp only; rw [hp]⟩
      · exact ⟨"properties", by
          rw [formatTool, hf]; dsimp only; rw [hn]; dsimp only; rw [hp]; dsimp only
          rw [hprops]⟩

theorem formatTool_fail_shape (t : RawTool) (e : Exc) (h : formatTool t = Except.error e) :
    ∃ k, e = keyErr k := by
  rw [formatTool] at h
  cases hfn : t.function with
  | none =>
    rw [hfn] at h
    exact ⟨"function", (Except.error.inj h).symm⟩
  | some f =>
    rw [hfn] at h
    dsimp only at h
    cases hn : f.name with
    | none =>
      rw [hn] at h
      exact ⟨"name", (Except.error.inj h).symm⟩
    | some nm =>
      rw [hn] at h
      dsimp only at h
      cases hp : f.parameters with
      | none =>
        rw [hp] at h
        exact ⟨"parameters", (Except.error.inj h).symm⟩
      | some p =>
        rw [hp] at h
        dsimp only at h
        cases hprops : p.properties with
        | none =>
          rw [hprops] at h
          exact ⟨"properties", (Except.error.inj h).symm⟩
        | some props =>
          rw [hprops] at h
          dsimp only at h
          cases h

theorem formatTools_err (ts : List RawTool)
    (h : ∃ t ∈ ts, t.function = Option.none ∨
      ∃ f, t.function = Option.some f ∧
        (f.parameters = Option.none ∨
          ∃ p, f.parameters = Option.some p ∧ p.properties = Option.none)) :
    ∃ k, formatTools ts = Except.error (keyErr k) := by
  induction ts with
  | nil =>
    obtain ⟨t, ht, _⟩ := h
    exact absurd ht (List.not_mem_nil t)
  | cons t ts ih =>
    obtain ⟨x, hx, hcase⟩ := h
    cases hft : formatTool t with
    | error e =>
      obtain ⟨k, rfl⟩ := formatTool_fail_shape t e hft
      exact ⟨k, by rw [formatTools, hft]; rfl⟩
    | ok ft =>
      rcases List.mem_cons.mp hx with rfl | hx2
      · obtain ⟨k, hk⟩ := formatTool_err x hcase
        rw [hft] at hk
        cases hk
      · obtain ⟨k, hk⟩ := ih ⟨x, hx2, hcase⟩
        refine ⟨k, ?_⟩
        rw [formatTools, hft, hk]
        rfl

/-- C9: when some message lacks a role or content key, or tools is
non-empty and some tool descriptor lacks the `function` key or its
`parameters`/`properties` fields, `create` raises a raw key-lookup error
before entering the dispatch try-block: the result is a KeyError-kind error
independent of the runtime function, so the runtime is never consulted and
the error is not remapped to any of the three mapped kinds. -/
theorem claim_C9 (msgs : List (List (String × String))) (model : String) (stream : Bool)
    (tools : Option (List RawTool))
    (h : (∃ m ∈ msgs, dictGet m ("role") = Option.none ∨
            dictGet m ("content") = Option.none) ∨
         (∃ t ts, tools = Option.some (t :: ts) ∧
            ∃ x ∈ t :: ts, x.function = Option.none ∨
              ∃ f, x.function = Option.some f ∧
                (f.parameters = Option.none ∨
                  ∃ p, f.parameters = Option.some p ∧ p.properties = Option.none))) :
    ∃ k, ∀ chat, ChatCompletions.create chat msgs model stream tools =
      Except.error (keyErr k) := by
  rcases h with hbad | ⟨t, ts, rfl, hbad⟩
  · obtain ⟨k, hk⟩ := cleanMessages_err msgs hbad
    exact ⟨k, fun chat => by rw [ChatCompletions.create, hk]⟩
  · rcases cleanMessages_shape msgs with ⟨cm, hcm⟩ | ⟨k, hk⟩
    · obtain ⟨k, hk⟩ := formatTools_err (t :: ts) hbad
      exact ⟨k, fun chat => by rw [ChatCompletions.create, hcm]; dsimp only; rw [hk]⟩
    · exact ⟨k, fun chat => by rw [ChatCompletions.create, hk]⟩

theorem claim_C9_witness :
    (∃ m ∈ [[("content", "hi")]],
      dictGet m ("role") = Option.none ∨ dictGet m ("content") = Option.none) ∧
    ∃ k, ∀ chat, ChatCompletions.create chat [[("content", "hi")]]
      ("llama3.2:3b") false Option.none = Except.error (keyErr k) :=
  ⟨⟨[("content", "hi")], List.mem_cons_self _ _, Or.inl rfl⟩,
    claim_C9 [[("content", "hi")]] ("llama3.2:3b") false Option.none
      (Or.inl ⟨[("content", "hi")], List.mem_cons_self _ _, Or.inl rfl⟩)⟩

end Swarm
